import Mathlib

/-!
# Verification of the icon resolution/rendering subsystem of `tzompantli`

Shallow embedding of `src/xdg.rs`: the icon path index (`IconLoader::new`),
the icon renderer (`IconLoader::load`, with its raster resize/premultiply
pipeline and its vector dispatch), the desktop-file key parser
(`DesktopEntries::new`'s inner loop) and the rescale operation
(`DesktopEntries::set_scale_factor`).

External collaborators (the `image` crate's decoder and resampling filter,
and the `Svg` vector rasterizer from `svg.rs`, which is not among the
sources) are modelled as parameters bundled in a `Collab` structure, with
their contracts stated separately.

Machine integers (`u32`, `usize`, `u8`) are modelled as `Nat`: all the
quantities involved (pixel channels `< 256`, icon sizes, buffer lengths)
are far below the wrap-around of their Rust types, and no arithmetic in the
translated code can overflow for the inputs considered, so no explicit
modular reduction is needed.  Strings are Lean `String`s (lists of
characters); the byte-level slice `&path_str[path_str.len() - 4..]` is
modelled at character level, which agrees with the source on the ASCII
paths the index constructs.
-/

/-! ## Basic data -/

/-- One RGBA8 pixel, channels in `0..256`. -/
structure Pixel where
  r : Nat
  g : Nat
  b : Nat
  a : Nat
  deriving DecidableEq, Repr

/-- A decoded raster bitmap (the `image` crate's buffer, normalized to
RGBA8): dimensions plus pixel rows in row-major order. -/
structure DecodedImage where
  width : Nat
  height : Nat
  pixels : List Pixel
  deriving DecidableEq, Repr

/-- Result of the vector rasterizer (`Svg` in `svg.rs`). -/
structure Svg where
  data : List Nat
  width : Nat
  deriving DecidableEq, Repr

/-- `Icon` from `xdg.rs`: premultiplied RGBA bytes, width, and the icon
name it was rendered from (kept for re-rendering on rescale). -/
structure Icon where
  data : List Nat
  width : Nat
  name : String
  deriving DecidableEq, Repr

/-- The `Error` enum of `xdg.rs`.  The payloads of the underlying
collaborator errors are dropped; `ImageReader::open` I/O failures and
decode failures are collapsed into the collaborator's single failure mode
and reported as `Error.image` (the distinction plays no role in any claim
considered here). -/
inductive Error where
  | image
  | svg
  | io
  | notFound
  deriving DecidableEq, Repr

/-- The external collaborators `IconLoader::load` delegates to:
raster decoding (`ImageReader::open(path)?.decode()?`), vector
rasterization (`Svg::from_path(path, size)`), and the CatmullRom
resampling filter invoked by `DynamicImage::resize` (only the *content* of
the resampled buffer is abstract; the output *dimensions* are computed by
`resizeDimensions` below, as in the `image` crate). -/
structure Collab where
  decode : String → Option DecodedImage
  svgRender : String → Nat → Option Svg
  resizeFn : DecodedImage → Nat → Nat → List Pixel

/-! ## String helpers -/

/-- Helper for `str::rsplit_once`: split a character list at the *last*
occurrence of `c`, returning the parts before and after it. -/
def rsplitOnceAux (c : Char) : List Char → Option (List Char × List Char)
  | [] => none
  | x :: xs =>
    match rsplitOnceAux c xs with
    | some (l, r) => some (x :: l, r)
    | none => if x = c then some ([], xs) else none

/-- `str::rsplit_once(c)`: split at the last occurrence of `c`. -/
def rsplitOnce (s : String) (c : Char) : Option (String × String) :=
  (rsplitOnceAux c s.data).map (fun p => (⟨p.1⟩, ⟨p.2⟩))

/-- `str::strip_prefix(key)` (the desktop-file parser applies it with the
literal keys `"Name="`, `"Icon="`, `"Exec="`). -/
def keyValue (key l : String) : Option String :=
  if l.data.take key.data.length = key.data then some ⟨l.data.drop key.data.length⟩
  else none

/-- `value.split(' ').next()`: the part of `value` before the first space
(the whole of `value` when it has no space).  `split` always yields at
least one piece, so `next()` is always `Some`. -/
def firstToken (v : String) : String :=
  ⟨v.data.takeWhile (fun ch => ch ≠ ' ')⟩

/-- The last four characters of a string, as in
`&path_str[path_str.len() - 4..]`; `none` models the panic on a string
shorter than four characters. -/
def lastFour (s : String) : Option (List Char) :=
  if s.data.length < 4 then none
  else some (s.data.drop (s.data.length - 4))

/-! ## The icon path index (`IconLoader::new`) -/

/-- `ICON_PATHS` from `xdg.rs` — icon lookup paths in reverse order of
priority (the comment in the source; later entries overwrite earlier
ones). -/
def ICON_PATHS : List (String × String) :=
  [("/usr/share/icons/hicolor/32x32/apps/", "png"),
   ("/usr/share/icons/hicolor/64x64/apps/", "png"),
   ("/usr/share/icons/hicolor/256x256/apps/", "png"),
   ("/usr/share/icons/hicolor/scalable/apps/", "svg"),
   ("/usr/share/icons/hicolor/128x128/apps/", "png"),
   ("/usr/share/pixmaps/", "svg"),
   ("/usr/share/pixmaps/", "png")]

/-- The icon index: name → full path.  `HashMap::insert` overwrites, so the
map is modelled as an association list where new entries are prepended and
`lookupIcon` takes the *first* (= most recent) entry for a key. -/
def Index : Type := List (String × String)

/-- `HashMap::get`: the most recently inserted binding for `name`. -/
def lookupIcon : List (String × String) → String → Option String
  | [], _ => none
  | (k, v) :: m, name => if k = name then some v else lookupIcon m name

/-- The inner loop of `IconLoader::new` over one directory's file listing:
for each file whose `rsplit_once('.')` extension equals the directory's
declared extension, insert `name ↦ dir ++ file_name` (the `DirEntry::path`
of a file in a directory whose configured path ends in `/`). -/
def scanDir (dir ext : String) : List String → List (String × String) → List (String × String)
  | [], m => m
  | f :: files, m =>
    scanDir dir ext files
      (match rsplitOnce f '.' with
       | some (name, e) => if e = ext then (name, dir ++ f) :: m else m
       | none => m)

/-- The outer loop of `IconLoader::new` over the configured directory
sequence; `fs` models `fs::read_dir` (directories that cannot be listed
contribute the empty listing). -/
def buildIndex (fs : String → List String) : List (String × String) → List (String × String) → List (String × String)
  | [], m => m
  | (dir, ext) :: paths, m => buildIndex fs paths (scanDir dir ext (fs dir) m)

/-- The `IconLoader` struct: its prebuilt `icons` map. -/
structure IconLoader where
  icons : List (String × String)

/-- `IconLoader::new`, parameterized over the directory listing function
and the path sequence (the source always passes `ICON_PATHS`). -/
def IconLoader.new (fs : String → List String) (paths : List (String × String)) : IconLoader :=
  ⟨buildIndex fs paths []⟩

/-! ## The raster pipeline (`IconLoader::load`, `.png` branch) -/

/-- Round-half-up division: the exact value of `round(p / q)` for
non-negative reals represented as a fraction (`round` of the spec's
premultiplication law). -/
def roundDiv (p q : Nat) : Nat :=
  (2 * p + q) / (2 * q)

/-- One premultiplied channel:
`(chunk[i] as f32 * chunk[3] as f32 / 255.).round() as u8`.
For `c, a ≤ 255` the `f32` computation is exact up to the final division,
whose rounding error (≤ 255·2⁻²⁴) is far below the distance of the exact
value `c·a/255` from any half-integer (≥ 1/510, ties being impossible as
`2·c·a` is even while `255·(2k+1)` is odd), so the `f32` result equals the
exact round-half-up value computed here; the result is ≤ 255, so the
`as u8` cast never truncates. -/
def premul (c a : Nat) : Nat :=
  (2 * (c * a) + 255) / 510

/-- One pixel through the premultiplication loop: the three colour
channels are premultiplied with the pixel's own alpha, the alpha channel
is written back unchanged. -/
def premulPixel (p : Pixel) : Pixel :=
  ⟨premul p.r p.a, premul p.g p.a, premul p.b p.a, p.a⟩

/-- Flatten pixels to the byte buffer `DynamicImage::into_bytes` exposes
(RGBA8: four bytes per pixel, row-major). -/
def pixelsBytes : List Pixel → List Nat
  | [] => []
  | p :: ps => p.r :: p.g :: p.b :: p.a :: pixelsBytes ps

/-- The byte buffer of a decoded image. -/
def DecodedImage.bytes (img : DecodedImage) : List Nat :=
  pixelsBytes img.pixels

/-- The premultiplication loop `for chunk in data.chunks_mut(4)` on the
flat byte buffer.  All three colour writes read only `chunk[3]` and the
original channel byte, so in-place mutation equals this pure rewrite.  A
trailing chunk shorter than four bytes would make `chunk[3]` panic in the
source; it cannot arise from RGBA8 data and is left unchanged here. -/
def premulBytes : List Nat → List Nat
  | r :: g :: b :: a :: rest => premul r a :: premul g a :: premul b a :: a :: premulBytes rest
  | rest => rest

/-- `image::math::utils::resize_dimensions(w, h, nw, nh, false)`, the
aspect-ratio-preserving dimension computation behind
`DynamicImage::resize`: scale both sides by the smaller of the two ratios,
round to nearest (the `f64` arithmetic is modelled exactly over `ℚ`), and
force a minimum of 1.  The `u32::MAX` clamping branches are dropped: they
are unreachable for the sizes at play. -/
def resizeDimensions (w h nw nh : Nat) : Nat × Nat :=
  let wScale : ℚ := (nw : ℚ) / (w : ℚ)
  let hScale : ℚ := (nh : ℚ) / (h : ℚ)
  let scale : ℚ := min wScale hScale
  (max (round ((w : ℚ) * scale)).toNat 1, max (round ((h : ℚ) * scale)).toNat 1)

/-- `image.resize(size, size, FilterType::CatmullRom)`: compute the
fit-within dimensions, resample via the filter collaborator. -/
def resizeImage (col : Collab) (img : DecodedImage) (size : Nat) : DecodedImage :=
  { width := (resizeDimensions img.width img.height size size).1,
    height := (resizeDimensions img.width img.height size size).2,
    pixels := col.resizeFn img (resizeDimensions img.width img.height size size).1
                (resizeDimensions img.width img.height size size).2 }

/-- `if image.width() != size && image.height() != size { image = image.resize(...) }`. -/
def resizeStep (col : Collab) (img : DecodedImage) (size : Nat) : DecodedImage :=
  if img.width ≠ size ∧ img.height ≠ size then resizeImage col img size else img

/-- The whole `.png` branch after a successful decode: conditional resize,
then width extraction and premultiplication of the byte buffer. -/
def renderPng (col : Collab) (img0 : DecodedImage) (size : Nat) (name : String) : Icon :=
  { data := premulBytes (resizeStep col img0 size).bytes,
    width := (resizeStep col img0 size).width,
    name := name }

/-! ## `IconLoader::load` -/

/-- `IconLoader::load`: look the name up in the index, dispatch on the
last four characters of the path.  `none` (never `some _`) models a panic:
the byte slice on a too-short path, or the `unreachable!()` arm. -/
def IconLoader.load (col : Collab) (self : IconLoader) (icon : String) (size : Nat) :
    Option (Except Error Icon) :=
  match lookupIcon self.icons icon with
  | none => some (Except.error Error.notFound)
  | some path =>
    match lastFour path with
    | none => none
    | some tail =>
      if tail = ".png".data then
        match col.decode path with
        | none => some (Except.error Error.image)
        | some img => some (Except.ok (renderPng col img size icon))
      else if tail = ".svg".data then
        match col.svgRender path size with
        | none => some (Except.error Error.svg)
        | some svg => some (Except.ok { data := svg.data, width := svg.width, name := icon })
      else none

/-! ## Collaborator contracts -/

/-- Contract of the raster decoder (`image` crate): a decoded bitmap's
buffer holds exactly `width * height` pixels. -/
def DecodeContract (col : Collab) : Prop :=
  ∀ p img, col.decode p = some img → img.pixels.length = img.width * img.height

/-- Contract of the resampling filter (`image::imageops`): the output
buffer holds exactly `nw * nh` pixels. -/
def ResizeContract (col : Collab) : Prop :=
  ∀ img nw nh, (col.resizeFn img nw nh).length = nw * nh

/-- Modelled from the spec: `src/svg.rs` (the `Svg::from_path` vector
rasterization collaborator) is not among the sources.  Per the spec, the
vector branch "delegate[s] to an external vector-rasterization
collaborator with the target size, and trust[s] its output to already be
RGBA8 and premultiplied", and an Icon is "always square at the exact
requested size": on success the rasterizer returns a square RGBA8 buffer
of exactly the requested size. -/
def SvgContract (col : Collab) : Prop :=
  ∀ p s svg, col.svgRender p s = some svg → svg.width = s ∧ svg.data.length = s * s * 4

/-! ## The catalog (`DesktopEntries`) -/

/-- `DesktopEntry` from `xdg.rs`. -/
structure DesktopEntry where
  icon : Icon
  name : String
  exec : String
  deriving DecidableEq, Repr

/-- `DesktopEntries` (the `loader` field is passed separately as a load
function where needed). -/
structure DesktopEntries where
  entries : List DesktopEntry
  scaleFactor : Nat
  deriving DecidableEq, Repr

/-- `ICON_SIZE`: desired size for PNG icons at a scale factor of 1. -/
def ICON_SIZE : Nat := 64

/-- `DesktopEntries::icon_size`. -/
def iconSize (d : DesktopEntries) : Nat :=
  ICON_SIZE * d.scaleFactor

/-- `DesktopEntries::set_scale_factor`, with `self.loader.load(..).ok()`
abstracted as `lf : name → size → Option Icon`: early return when the
factor is unchanged; otherwise store the new factor first, then re-render
every entry at the new `icon_size`, keeping the old icon when the
re-render fails. -/
def setScaleFactor (lf : String → Nat → Option Icon) (d : DesktopEntries) (f : Nat) :
    DesktopEntries :=
  if d.scaleFactor = f then d
  else
    { entries :=
        d.entries.map (fun e =>
          match lf e.icon.name (iconSize { d with scaleFactor := f }) with
          | some icon => { e with icon := icon }
          | none => e),
      scaleFactor := f }

/-- The sequence of `loader.load` invocations `set_scale_factor` performs
(the instrumentation needed to state "the renderer is never invoked"):
none on the early return, otherwise one per entry at the new size. -/
def setScaleFactorCalls (d : DesktopEntries) (f : Nat) : List (String × Nat) :=
  if d.scaleFactor = f then []
  else d.entries.map (fun e => (e.icon.name, ICON_SIZE * f))

/-! ## The desktop-file parser (inner loop of `DesktopEntries::new`) -/

/-- The three mutable locals of the per-file loop. -/
structure PState where
  name : Option String
  icon : Option Icon
  exec : Option String
  deriving DecidableEq

/-- Initial state: `let mut icon = None; let mut exec = None; let mut name = None;`. -/
def initState : PState := ⟨none, none, none⟩

/-- One line through the `strip_prefix` cascade.  `lf` abstracts
`desktop_entries.loader.load(value, icon_size).ok()`. -/
def lineStep (lf : String → Nat → Option Icon) (isz : Nat) (st : PState) (l : String) : PState :=
  match keyValue "Name=" l with
  | some v => { st with name := some v }
  | none =>
    match keyValue "Icon=" l with
    | some v => { st with icon := lf v isz }
    | none =>
      match keyValue "Exec=" l with
      | some v => { st with exec := some (firstToken v) }
      | none => st

/-- `icon.is_some() && exec.is_some() && name.is_some()` — the early-break
condition, checked after each line. -/
def allSome (st : PState) : Bool :=
  st.icon.isSome && st.exec.isSome && st.name.isSome

/-- The `for line in desktop_file.lines()` loop with its early `break`. -/
def parseLines (lf : String → Nat → Option Icon) (isz : Nat) : List String → PState → PState
  | [], st => st
  | l :: rest, st =>
    let st' := lineStep lf isz st l
    if allSome st' then st' else parseLines lf isz rest st'

/-- One desktop file's contribution:
`if let Some(((name, icon), exec)) = name.zip(icon).zip(exec) { push .. }`. -/
def parseDesktopFile (lf : String → Nat → Option Icon) (isz : Nat) (lines : List String) :
    Option DesktopEntry :=
  match parseLines lf isz lines initState with
  | ⟨some n, some i, some e⟩ => some ⟨i, n, e⟩
  | _ => none

deriving instance DecidableEq for Except

/-! ## Lemmas: `rsplit_once` and file names -/

theorem rsplitOnceAux_cons (c x : Char) (xs : List Char) :
    rsplitOnceAux c (x :: xs) =
      match rsplitOnceAux c xs with
      | some (l, r) => some (x :: l, r)
      | none => if x = c then some ([], xs) else none := rfl

theorem rsplitOnceAux_of_not_mem (c : Char) :
    ∀ l : List Char, c ∉ l → rsplitOnceAux c l = none
  | [], _ => rfl
  | x :: xs, h => by
    rw [rsplitOnceAux_cons, rsplitOnceAux_of_not_mem c xs (fun hx => h (List.mem_cons_of_mem x hx))]
    exact if_neg (fun hx => h (by rw [← hx]; exact List.mem_cons_self x xs))

theorem rsplitOnceAux_append (c : Char) :
    ∀ a : List Char, ∀ b : List Char, c ∉ b → rsplitOnceAux c (a ++ c :: b) = some (a, b)
  | [], b, h => by
    rw [List.nil_append, rsplitOnceAux_cons, rsplitOnceAux_of_not_mem c b h]
    exact if_pos rfl
  | x :: a, b, h => by
    rw [List.cons_append, rsplitOnceAux_cons, rsplitOnceAux_append c a b h]

theorem rsplitOnceAux_eq (c : Char) :
    ∀ l a b : List Char, rsplitOnceAux c l = some (a, b) → l = a ++ c :: b
  | [], a, b, h => by simp [rsplitOnceAux] at h
  | x :: xs, a, b, h => by
    rw [rsplitOnceAux_cons] at h
    cases hr : rsplitOnceAux c xs with
    | some p =>
      obtain ⟨l, r⟩ := p
      rw [hr] at h
      injection h with h'
      have ha : x :: l = a := congrArg Prod.fst h'
      have hb : r = b := congrArg Prod.snd h'
      subst ha
      subst hb
      rw [List.cons_append]
      exact congrArg (x :: ·) (rsplitOnceAux_eq c xs l r hr)
    | none =>
      rw [hr] at h
      by_cases hx : x = c
      · rw [if_pos hx] at h
        injection h with h'
        have ha : ([] : List Char) = a := congrArg Prod.fst h'
        have hb : xs = b := congrArg Prod.snd h'
        subst ha
        subst hb
        rw [hx, List.nil_append]
      · rw [if_neg hx] at h
        exact absurd h (by simp)

/-- The characters of a file name assembled as `name.ext`. -/
theorem catData (n e : String) : (n ++ "." ++ e).data = n.data ++ '.' :: e.data := by
  rw [String.data_append, String.data_append]
  simp

theorem rsplitOnce_fileName (n e : String) (h : '.' ∉ e.data) :
    rsplitOnce (n ++ "." ++ e) '.' = some (n, e) := by
  unfold rsplitOnce
  rw [catData, rsplitOnceAux_append '.' n.data e.data h]
  rfl

/-- Only the file named `name.ext` can resolve to `(name, ext)`. -/
theorem rsplitOnce_eq_fileName (f n e : String) (h : rsplitOnce f '.' = some (n, e)) :
    f = n ++ "." ++ e := by
  unfold rsplitOnce at h
  cases hr : rsplitOnceAux '.' f.data with
  | none =>
    rw [hr] at h
    exact absurd h (by simp)
  | some p =>
    obtain ⟨a, b⟩ := p
    rw [hr] at h
    simp only [Option.map_some'] at h
    injection h with h'
    have h1 : (⟨a⟩ : String) = n := congrArg Prod.fst h'
    have h2 : (⟨b⟩ : String) = e := congrArg Prod.snd h'
    subst h1
    subst h2
    apply String.ext
    rw [catData]
    exact rsplitOnceAux_eq '.' f.data a b hr

/-! ## Lemmas: the index (`IconLoader::new`) -/

theorem scanDir_cons (dir ext f : String) (files : List String) (m : List (String × String)) :
    scanDir dir ext (f :: files) m =
      scanDir dir ext files
        (match rsplitOnce f '.' with
         | some (name, e) => if e = ext then (name, dir ++ f) :: m else m
         | none => m) := rfl

theorem buildIndex_cons (fs : String → List String) (dir ext : String)
    (paths : List (String × String)) (m : List (String × String)) :
    buildIndex fs ((dir, ext) :: paths) m = buildIndex fs paths (scanDir dir ext (fs dir) m) := rfl

theorem buildIndex_append (fs : String → List String) :
    ∀ l₁ l₂ : List (String × String), ∀ m,
      buildIndex fs (l₁ ++ l₂) m = buildIndex fs l₂ (buildIndex fs l₁ m)
  | [], _, _ => rfl
  | (dir, ext) :: l₁, l₂, m => by
    rw [List.cons_append, buildIndex_cons, buildIndex_cons]
    exact buildIndex_append fs l₁ l₂ _

/-- Scanning a directory with no file resolving to `name` does not change
what `name` looks up to. -/
theorem lookup_scanDir_of_none (dir ext name : String) :
    ∀ files : List String, ∀ m, (∀ f ∈ files, rsplitOnce f '.' ≠ some (name, ext)) →
      lookupIcon (scanDir dir ext files m) name = lookupIcon m name
  | [], _, _ => rfl
  | f :: files, m, h => by
    have hf := h f (List.mem_cons_self f files)
    have ih := fun m' => lookup_scanDir_of_none dir ext name files m'
      (fun f' hf' => h f' (List.mem_cons_of_mem f hf'))
    rw [scanDir_cons]
    cases hr : rsplitOnce f '.' with
    | none =>
      exact ih m
    | some p =>
      obtain ⟨n, e⟩ := p
      show lookupIcon (scanDir dir ext files (if e = ext then (n, dir ++ f) :: m else m)) name
        = lookupIcon m name
      by_cases he : e = ext
      · rw [if_pos he, ih]
        subst he
        have hn : ¬(n = name) := fun hEq => hf (by rw [hr, hEq])
        simp [lookupIcon, hn]
      · rw [if_neg he]
        exact ih m

/-- Scanning a directory keeps an already-correct binding for `name`
pointing at this directory's own `name.ext` file. -/
theorem lookup_scanDir_preserve (dir ext name : String) :
    ∀ files : List String, ∀ m,
      lookupIcon m name = some (dir ++ (name ++ "." ++ ext)) →
      lookupIcon (scanDir dir ext files m) name = some (dir ++ (name ++ "." ++ ext))
  | [], _, h => h
  | f :: files, m, h => by
    rw [scanDir_cons]
    cases hr : rsplitOnce f '.' with
    | none =>
      exact lookup_scanDir_preserve dir ext name files m h
    | some p =>
      obtain ⟨n, e⟩ := p
      show lookupIcon (scanDir dir ext files (if e = ext then (n, dir ++ f) :: m else m)) name
        = some (dir ++ (name ++ "." ++ ext))
      by_cases he : e = ext
      · rw [if_pos he]
        subst he
        apply lookup_scanDir_preserve
        by_cases hn : n = name
        · subst hn
          have hfeq := rsplitOnce_eq_fileName f _ _ hr
          rw [hfeq]
          simp [lookupIcon]
        · simp [lookupIcon, hn, h]
      · rw [if_neg he]
        exact lookup_scanDir_preserve dir ext name files m h

/-- Scanning a directory whose listing contains `name.ext` makes `name`
look up to this directory's path for it, whatever the map held before. -/
theorem lookup_scanDir_mem (dir ext name : String) (hdot : '.' ∉ ext.data) :
    ∀ files : List String, ∀ m, (name ++ "." ++ ext) ∈ files →
      lookupIcon (scanDir dir ext files m) name = some (dir ++ (name ++ "." ++ ext))
  | [], _, hmem => absurd hmem (List.not_mem_nil _)
  | f :: files, m, hmem => by
    by_cases hf : f = name ++ "." ++ ext
    · subst hf
      rw [scanDir_cons, rsplitOnce_fileName name ext hdot]
      show lookupIcon
          (scanDir dir ext files
            (if ext = ext then (name, dir ++ (name ++ "." ++ ext)) :: m else m)) name
        = some (dir ++ (name ++ "." ++ ext))
      rw [if_pos rfl]
      apply lookup_scanDir_preserve
      simp [lookupIcon]
    · rcases List.mem_cons.mp hmem with h1 | h2
      · exact absurd h1.symm hf
      · rw [scanDir_cons]
        exact lookup_scanDir_mem dir ext name hdot files _ h2

/-- Directories none of whose files resolve to `name` do not change what
`name` looks up to. -/
theorem lookup_buildIndex_of_none (fs : String → List String) (name : String) :
    ∀ paths : List (String × String), ∀ m,
      (∀ d ∈ paths, ∀ f ∈ fs d.1, rsplitOnce f '.' ≠ some (name, d.2)) →
      lookupIcon (buildIndex fs paths m) name = lookupIcon m name
  | [], _, _ => rfl
  | (dir, ext) :: paths, m, h => by
    rw [buildIndex_cons]
    rw [lookup_buildIndex_of_none fs name paths _
      (fun d hd => h d (List.mem_cons_of_mem _ hd))]
    exact lookup_scanDir_of_none dir ext name (fs dir) m
      (h (dir, ext) (List.mem_cons_self _ _))

/-- Claim C3: when two configured directories both hold a file resolving to the
same icon name (with their declared extensions), and no directory
processed after the second one resolves that name, the built index maps
the name to the *second* (later-processed) directory's file path: later
insertions always overwrite earlier ones. -/
theorem c3_later_overwrites (fs : String → List String)
    (pre mid post : List (String × String)) (d1 d2 : String × String) (name : String)
    (hext1 : d1.2 = "png" ∨ d1.2 = "svg")
    (hext2 : d2.2 = "png" ∨ d2.2 = "svg")
    (h1 : (name ++ "." ++ d1.2) ∈ fs d1.1)
    (h2 : (name ++ "." ++ d2.2) ∈ fs d2.1)
    (h3 : ∀ d ∈ post, ∀ f ∈ fs d.1, rsplitOnce f '.' ≠ some (name, d.2)) :
    lookupIcon (IconLoader.new fs (pre ++ d1 :: mid ++ d2 :: post)).icons name
      = some (d2.1 ++ (name ++ "." ++ d2.2)) := by
  obtain ⟨p2, e2⟩ := d2
  have hdot : '.' ∉ e2.data := by
    rcases hext2 with h | h <;> rw [show ((p2, e2).2 = e2) from rfl] at h <;> rw [h] <;> decide
  show lookupIcon (buildIndex fs (pre ++ d1 :: mid ++ (p2, e2) :: post) []) name = _
  have hsplit : pre ++ d1 :: mid ++ (p2, e2) :: post
      = (pre ++ d1 :: mid) ++ (p2, e2) :: post := by
    simp
  rw [hsplit, buildIndex_append, buildIndex_cons]
  rw [lookup_buildIndex_of_none fs name post _ h3]
  exact lookup_scanDir_mem p2 e2 name hdot (fs p2) _ h2

/-- A two-directory scenario: `/A/` (png) scanned before `/B/` (svg),
`foo` present in both. -/
def fs3 : String → List String := fun d =>
  if d = "/A/" then ["foo.png"] else if d = "/B/" then ["foo.svg"] else []

theorem c3_later_overwrites_witness :
    lookupIcon (IconLoader.new fs3 ([] ++ ("/A/", "png") :: [] ++ ("/B/", "svg") :: [])).icons "foo"
      = some ("/B/" ++ ("foo" ++ "." ++ "svg")) :=
  c3_later_overwrites fs3 [] [] [] ("/A/", "png") ("/B/", "svg") "foo"
    (Or.inl rfl) (Or.inr rfl) (by decide) (by decide) (by decide)

/-- Listing function for the C2 scenario: `/usr/share/pixmaps/foo.png` and
`/usr/share/icons/hicolor/scalable/apps/foo.svg` both exist. -/
def fsC2 : String → List String := fun d =>
  if d = "/usr/share/pixmaps/" then ["foo.png"]
  else if d = "/usr/share/icons/hicolor/scalable/apps/" then ["foo.svg"]
  else []

/-- Collaborators for the C2 scenario.  The vector rasterizer always
fails, so any successful load must have gone through the raster decode
branch. -/
def colC2 : Collab :=
  { decode := fun p =>
      if p = "/usr/share/pixmaps/foo.png" then some ⟨64, 64, [⟨8, 8, 8, 255⟩]⟩ else none,
    svgRender := fun _ _ => none,
    resizeFn := fun _ nw nh => List.replicate (nw * nh) ⟨0, 0, 0, 0⟩ }

/-- Claim C2 is false as stated: with the program's `ICON_PATHS`,
`/usr/share/pixmaps/` is processed *after* `.../scalable/apps/`, so when
both `pixmaps/foo.png` and `scalable/apps/foo.svg` exist, `lookup("foo")`
returns the raster pixmaps path, not the vector path, and `load("foo",
64)` succeeds through the raster branch (the vector collaborator here
always fails, so a vector-branch load could not return `Ok`). -/
theorem c2_priority_cex :
    lookupIcon (IconLoader.new fsC2 ICON_PATHS).icons "foo" = some "/usr/share/pixmaps/foo.png"
    ∧ lookupIcon (IconLoader.new fsC2 ICON_PATHS).icons "foo"
        ≠ some "/usr/share/icons/hicolor/scalable/apps/foo.svg"
    ∧ IconLoader.load colC2 (IconLoader.new fsC2 ICON_PATHS) "foo" 64
        = some (Except.ok ⟨[8, 8, 8, 255], 64, "foo"⟩) :=
  ⟨by decide, by decide, by decide⟩

/-- Claim C2 amended: under the configured `ICON_PATHS`, when
`/usr/share/pixmaps/foo.png` exists (and `scalable/apps/foo.svg` may also
exist), `lookup("foo")` resolves to the *raster* pixmaps path — pixmaps
being the last directory processed — and `load` goes through the raster
decode branch on that path. -/
theorem c2_priority_amended (fs : String → List String) (col : Collab) (size : Nat)
    (h1 : "foo.png" ∈ fs "/usr/share/pixmaps/")
    (h2 : "foo.svg" ∈ fs "/usr/share/icons/hicolor/scalable/apps/") :
    lookupIcon (IconLoader.new fs ICON_PATHS).icons "foo" = some "/usr/share/pixmaps/foo.png"
    ∧ IconLoader.load col (IconLoader.new fs ICON_PATHS) "foo" size
        = (match col.decode "/usr/share/pixmaps/foo.png" with
           | some img => some (Except.ok (renderPng col img size "foo"))
           | none => some (Except.error Error.image)) := by
  have hname : ("foo" ++ "." ++ "png") = "foo.png" := by decide
  have hmem : ("foo" ++ "." ++ "png") ∈ fs "/usr/share/pixmaps/" := by
    rw [hname]
    exact h1
  have hpath : "/usr/share/pixmaps/" ++ ("foo" ++ "." ++ "png") = "/usr/share/pixmaps/foo.png" := by
    decide
  have hlook : lookupIcon (IconLoader.new fs ICON_PATHS).icons "foo"
      = some "/usr/share/pixmaps/foo.png" := by
    show lookupIcon (buildIndex fs ICON_PATHS []) "foo" = _
    have hsp : ICON_PATHS =
        [("/usr/share/icons/hicolor/32x32/apps/", "png"),
         ("/usr/share/icons/hicolor/64x64/apps/", "png"),
         ("/usr/share/icons/hicolor/256x256/apps/", "png"),
         ("/usr/share/icons/hicolor/scalable/apps/", "svg"),
         ("/usr/share/icons/hicolor/128x128/apps/", "png"),
         ("/usr/share/pixmaps/", "svg")]
        ++ [("/usr/share/pixmaps/", "png")] := rfl
    rw [hsp, buildIndex_append, buildIndex_cons, ← hpath]
    exact lookup_scanDir_mem "/usr/share/pixmaps/" "png" "foo" (by decide) _ _ hmem
  refine ⟨hlook, ?_⟩
  have hl4 : lastFour "/usr/share/pixmaps/foo.png" = some ".png".data := by decide
  simp only [IconLoader.load, hlook, hl4]
  simp only [if_true]
  cases col.decode "/usr/share/pixmaps/foo.png" <;> rfl

theorem c2_priority_witness :
    lookupIcon (IconLoader.new fsC2 ICON_PATHS).icons "foo" = some "/usr/share/pixmaps/foo.png"
    ∧ IconLoader.load colC2 (IconLoader.new fsC2 ICON_PATHS) "foo" 7
        = (match colC2.decode "/usr/share/pixmaps/foo.png" with
           | some img => some (Except.ok (renderPng colC2 img 7 "foo"))
           | none => some (Except.error Error.image)) :=
  c2_priority_amended fsC2 colC2 7 (by decide) (by decide)

/-! ## Lemmas: every stored path ends in the declared extension -/

theorem mem_scanDir (dir ext : String) :
    ∀ files : List String, ∀ m, ∀ q : String × String, q ∈ scanDir dir ext files m →
      q ∈ m ∨ ∃ f ∈ files, rsplitOnce f '.' = some (q.1, ext) ∧ q.2 = dir ++ f
  | [], _, _, h => Or.inl h
  | f :: files, m, q, h => by
    rw [scanDir_cons] at h
    rcases mem_scanDir dir ext files _ q h with hm | ⟨f', hf', hsp, hq⟩
    · cases hr : rsplitOnce f '.' with
      | none =>
        rw [hr] at hm
        exact Or.inl hm
      | some p =>
        obtain ⟨n, e⟩ := p
        rw [hr] at hm
        have hm' : q ∈ (if e = ext then (n, dir ++ f) :: m else m) := hm
        by_cases he : e = ext
        · rw [if_pos he] at hm'
          rcases List.mem_cons.mp hm' with h1 | h2
          · subst h1
            exact Or.inr ⟨f, List.mem_cons_self f files, by rw [hr, he], rfl⟩
          · exact Or.inl h2
        · rw [if_neg he] at hm'
          exact Or.inl hm'
    · exact Or.inr ⟨f', List.mem_cons_of_mem f hf', hsp, hq⟩

theorem mem_buildIndex (fs : String → List String) :
    ∀ paths : List (String × String), ∀ m, ∀ q : String × String, q ∈ buildIndex fs paths m →
      q ∈ m ∨ ∃ d ∈ paths, ∃ f ∈ fs d.1, rsplitOnce f '.' = some (q.1, d.2) ∧ q.2 = d.1 ++ f
  | [], _, _, h => Or.inl h
  | (dir, ext) :: paths, m, q, h => by
    rw [buildIndex_cons] at h
    rcases mem_buildIndex fs paths _ q h with hm | ⟨d, hd, hrest⟩
    · rcases mem_scanDir dir ext (fs dir) m q hm with hm' | ⟨f, hf, hsp, hq⟩
      · exact Or.inl hm'
      · exact Or.inr ⟨(dir, ext), List.mem_cons_self _ _, f, hf, hsp, hq⟩
    · exact Or.inr ⟨d, List.mem_cons_of_mem _ hd, hrest⟩

theorem lookupIcon_mem :
    ∀ m : List (String × String), ∀ name v : String,
      lookupIcon m name = some v → (name, v) ∈ m
  | [], _, _, h => by simp [lookupIcon] at h
  | (k, w) :: m, name, v, h => by
    simp only [lookupIcon] at h
    by_cases hk : k = name
    · rw [if_pos hk] at h
      injection h with h'
      subst hk
      subst h'
      exact List.mem_cons_self _ _
    · rw [if_neg hk] at h
      exact List.mem_cons_of_mem _ (lookupIcon_mem m name v h)

/-- Claim C9: any name the built index resolves points at a path ending in
`.png` or `.svg` (as a well-formed four-character tail: the byte slice
cannot panic), and `IconLoader::load` on such a name never reaches the
`unreachable!()` arm — it always returns a `Result`, whatever the
collaborators do. -/
theorem c9_dispatch_total (fs : String → List String) (paths : List (String × String))
    (col : Collab) (size : Nat) (name p : String)
    (hext : ∀ d ∈ paths, d.2 = "png" ∨ d.2 = "svg")
    (hlook : lookupIcon (IconLoader.new fs paths).icons name = some p) :
    (lastFour p = some ".png".data ∨ lastFour p = some ".svg".data)
    ∧ IconLoader.load col (IconLoader.new fs paths) name size ≠ none := by
  have hmem : (name, p) ∈ buildIndex fs paths [] := lookupIcon_mem _ name p hlook
  rcases mem_buildIndex fs paths [] (name, p) hmem with hnil | ⟨d, hd, f, hf, hsp, hp⟩
  · exact absurd hnil (List.not_mem_nil _)
  · obtain ⟨dir, ext⟩ := d
    simp only at hsp hp
    have hfe : f = name ++ "." ++ ext := rsplitOnce_eq_fileName f name ext hsp
    have hpd : p.data = (dir.data ++ name.data) ++ ('.' :: ext.data) := by
      rw [hp, hfe, String.data_append, catData, List.append_assoc]
    have hextd : ext.data.length = 3 ∧
        ('.' :: ext.data = ".png".data ∨ '.' :: ext.data = ".svg".data) := by
      rcases hext (dir, ext) hd with h | h
      · have h' : ext = "png" := h
        subst h'
        exact ⟨rfl, Or.inl rfl⟩
      · have h' : ext = "svg" := h
        subst h'
        exact ⟨rfl, Or.inr rfl⟩
    have hlen : ('.' :: ext.data).length = 4 := by rw [List.length_cons, hextd.1]
    have hl4 : lastFour p = some ('.' :: ext.data) := by
      rw [lastFour, hpd, List.length_append, hlen]
      rw [if_neg (by omega)]
      have harith : (dir.data ++ name.data).length + 4 - 4 = (dir.data ++ name.data).length := by
        omega
      rw [harith, List.drop_left]
    constructor
    · rcases hextd.2 with h | h
      · exact Or.inl (by rw [hl4, h])
      · exact Or.inr (by rw [hl4, h])
    · rcases hextd.2 with h | h
      · rw [h] at hl4
        simp only [IconLoader.load, hlook, hl4]
        simp only [if_true]
        cases col.decode p <;> simp
      · rw [h] at hl4
        simp only [IconLoader.load, hlook, hl4]
        simp only [if_true]
        cases col.svgRender p size <;> simp

/-- A one-directory scenario for the dispatch totality theorem. -/
def fs9 : String → List String := fun d => if d = "/p/" then ["a.png"] else []

/-- Collaborators that always fail (`load` must still return an `Err`,
not panic). -/
def col9 : Collab := ⟨fun _ => none, fun _ _ => none, fun _ _ _ => []⟩

theorem c9_dispatch_total_witness :
    (lastFour "/p/a.png" = some ".png".data ∨ lastFour "/p/a.png" = some ".svg".data)
    ∧ IconLoader.load col9 (IconLoader.new fs9 [("/p/", "png")]) "a" 64 ≠ none :=
  c9_dispatch_total fs9 [("/p/", "png")] col9 64 "a" "/p/a.png" (by decide) (by decide)

/-! ## Lemmas: the raster pipeline -/

theorem premulBytes_cons4 (r g b a : Nat) (l : List Nat) :
    premulBytes (r :: g :: b :: a :: l)
      = premul r a :: premul g a :: premul b a :: a :: premulBytes l := rfl

theorem premulBytes_length : ∀ l : List Nat, (premulBytes l).length = l.length
  | [] => rfl
  | [_] => rfl
  | [_, _] => rfl
  | [_, _, _] => rfl
  | r :: g :: b :: a :: rest => by
    rw [premulBytes_cons4]
    simp [premulBytes_length rest]

theorem pixelsBytes_length : ∀ ps : List Pixel, (pixelsBytes ps).length = 4 * ps.length
  | [] => rfl
  | p :: ps => by
    simp [pixelsBytes, pixelsBytes_length ps]
    omega

/-- The byte-chunk premultiplication loop acts pixelwise. -/
theorem premulBytes_pixelsBytes :
    ∀ ps : List Pixel, premulBytes (pixelsBytes ps) = pixelsBytes (ps.map premulPixel)
  | [] => rfl
  | p :: ps => by
    show premulBytes (p.r :: p.g :: p.b :: p.a :: pixelsBytes ps) = _
    rw [premulBytes_cons4, premulBytes_pixelsBytes ps]
    rfl

theorem get4_skip (x1 x2 x3 x4 : Nat) (l : List Nat) (n : Nat) :
    List.get? (x1 :: x2 :: x3 :: x4 :: l) (n + 4) = List.get? l n := rfl

/-- The four bytes of pixel `i` in the flattened buffer. -/
theorem pixelsBytes_getElem :
    ∀ (ps : List Pixel) (i : Nat) (h : i < ps.length),
      (pixelsBytes ps).get? (4 * i) = some (ps.get ⟨i, h⟩).r
      ∧ (pixelsBytes ps).get? (4 * i + 1) = some (ps.get ⟨i, h⟩).g
      ∧ (pixelsBytes ps).get? (4 * i + 2) = some (ps.get ⟨i, h⟩).b
      ∧ (pixelsBytes ps).get? (4 * i + 3) = some (ps.get ⟨i, h⟩).a
  | [], _, h => absurd h (by simp)
  | p :: ps, 0, _ => ⟨rfl, rfl, rfl, rfl⟩
  | p :: ps, i + 1, h => by
    have hi : i < ps.length := Nat.succ_lt_succ_iff.mp (by simpa using h)
    have ih := pixelsBytes_getElem ps i hi
    have e0 : 4 * (i + 1) = 4 * i + 4 := by ring
    have e1 : 4 * (i + 1) + 1 = (4 * i + 1) + 4 := by ring
    have e2 : 4 * (i + 1) + 2 = (4 * i + 2) + 4 := by ring
    have e3 : 4 * (i + 1) + 3 = (4 * i + 3) + 4 := by ring
    refine ⟨?_, ?_, ?_, ?_⟩
    · show (p.r :: p.g :: p.b :: p.a :: pixelsBytes ps).get? (4 * (i + 1)) = _
      rw [e0, get4_skip]
      exact ih.1
    · show (p.r :: p.g :: p.b :: p.a :: pixelsBytes ps).get? (4 * (i + 1) + 1) = _
      rw [e1, get4_skip]
      exact ih.2.1
    · show (p.r :: p.g :: p.b :: p.a :: pixelsBytes ps).get? (4 * (i + 1) + 2) = _
      rw [e2, get4_skip]
      exact ih.2.2.1
    · show (p.r :: p.g :: p.b :: p.a :: pixelsBytes ps).get? (4 * (i + 1) + 3) = _
      rw [e3, get4_skip]
      exact ih.2.2.2

/-- Fit-within resize of a square image of positive side yields exactly
the requested square. -/
theorem resizeDimensions_square (w s : Nat) (hw : 0 < w) (hs : 0 < s) :
    resizeDimensions w w s s = (s, s) := by
  have hw' : (w : ℚ) ≠ 0 := Nat.cast_ne_zero.mpr (Nat.pos_iff_ne_zero.mp hw)
  have hmul : (w : ℚ) * ((s : ℚ) / (w : ℚ)) = (s : ℚ) := by
    field_simp
  simp only [resizeDimensions, min_self, hmul, round_natCast, Int.toNat_natCast]
  rw [Nat.max_eq_left (by omega : 1 ≤ s)]

/-- Claim C5: in the raster branch, the resize is performed iff *both* decoded
dimensions differ from the target: a bitmap matching the target in at
least one dimension goes straight to premultiplication unresized, and
only a bitmap differing in both goes through the resampling filter. -/
theorem c5_resize_condition (col : Collab) (ldr : IconLoader) (name p : String) (size : Nat)
    (img : DecodedImage)
    (hlook : lookupIcon ldr.icons name = some p)
    (hl4 : lastFour p = some ".png".data)
    (hdec : col.decode p = some img) :
    ((img.width = size ∨ img.height = size) →
      IconLoader.load col ldr name size
        = some (Except.ok ⟨premulBytes img.bytes, img.width, name⟩))
    ∧ (img.width ≠ size → img.height ≠ size →
      IconLoader.load col ldr name size
        = some (Except.ok ⟨premulBytes (resizeImage col img size).bytes,
            (resizeImage col img size).width, name⟩)) := by
  have hload : IconLoader.load col ldr name size
      = some (Except.ok (renderPng col img size name)) := by
    simp only [IconLoader.load, hlook, hl4]
    simp only [if_true]
    rw [hdec]
  constructor
  · intro h
    rw [hload]
    have hneg : ¬(img.width ≠ size ∧ img.height ≠ size) := by
      rcases h with h | h
      · exact fun hc => hc.1 h
      · exact fun hc => hc.2 h
    have hstep : resizeStep col img size = img := by
      simp only [resizeStep, if_neg hneg]
    simp only [renderPng, hstep]
  · intro hw hh
    rw [hload]
    have hstep : resizeStep col img size = resizeImage col img size := by
      simp only [resizeStep, if_pos (And.intro hw hh)]
    simp only [renderPng, hstep]

/-- The index of a concrete raster scenario. -/
def ldr5 : IconLoader := ⟨[("a", "/d/a.png")]⟩

/-- A decoded 2×1 bitmap (width already matches a size-2 request). -/
def img5 : DecodedImage := ⟨2, 1, [⟨1, 2, 3, 4⟩, ⟨5, 6, 7, 8⟩]⟩

def col5 : Collab :=
  { decode := fun p => if p = "/d/a.png" then some img5 else none,
    svgRender := fun _ _ => none,
    resizeFn := fun _ nw nh => List.replicate (nw * nh) ⟨0, 0, 0, 0⟩ }

theorem c5_resize_condition_witness :
    IconLoader.load col5 ldr5 "a" 2
      = some (Except.ok ⟨premulBytes img5.bytes, img5.width, "a"⟩) :=
  (c5_resize_condition col5 ldr5 "a" "/d/a.png" 2 img5 (by decide) (by decide) (by decide)).1
    (Or.inl rfl)

/-- Claim C6: in the raster branch, every emitted pixel is the post-resize pixel
with each colour channel premultiplied as `round(channel * a / 255)` and
the alpha byte unchanged. -/
theorem c6_premultiply_law (col : Collab) (ldr : IconLoader) (name p : String) (size : Nat)
    (img : DecodedImage)
    (hlook : lookupIcon ldr.icons name = some p)
    (hl4 : lastFour p = some ".png".data)
    (hdec : col.decode p = some img) :
    IconLoader.load col ldr name size = some (Except.ok (renderPng col img size name))
    ∧ ∀ (i : Nat) (hi : i < (resizeStep col img size).pixels.length),
        (renderPng col img size name).data.get? (4 * i)
            = some (roundDiv (((resizeStep col img size).pixels.get ⟨i, hi⟩).r
                * ((resizeStep col img size).pixels.get ⟨i, hi⟩).a) 255)
        ∧ (renderPng col img size name).data.get? (4 * i + 1)
            = some (roundDiv (((resizeStep col img size).pixels.get ⟨i, hi⟩).g
                * ((resizeStep col img size).pixels.get ⟨i, hi⟩).a) 255)
        ∧ (renderPng col img size name).data.get? (4 * i + 2)
            = some (roundDiv (((resizeStep col img size).pixels.get ⟨i, hi⟩).b
                * ((resizeStep col img size).pixels.get ⟨i, hi⟩).a) 255)
        ∧ (renderPng col img size name).data.get? (4 * i + 3)
            = some ((resizeStep col img size).pixels.get ⟨i, hi⟩).a := by
  constructor
  · simp only [IconLoader.load, hlook, hl4]
    simp only [if_true]
    rw [hdec]
  · intro i hi
    have hdata : (renderPng col img size name).data
        = pixelsBytes ((resizeStep col img size).pixels.map premulPixel) := by
      simp only [renderPng, DecodedImage.bytes, premulBytes_pixelsBytes]
    have hmap : i < ((resizeStep col img size).pixels.map premulPixel).length := by
      simpa using hi
    have hidx := pixelsBytes_getElem ((resizeStep col img size).pixels.map premulPixel) i hmap
    have hget : ((resizeStep col img size).pixels.map premulPixel).get ⟨i, hmap⟩
        = premulPixel ((resizeStep col img size).pixels.get ⟨i, hi⟩) := by
      simp [List.get_eq_getElem, List.getElem_map]
    rw [hdata]
    refine ⟨?_, ?_, ?_, ?_⟩
    · rw [hidx.1, hget]
      rfl
    · rw [hidx.2.1, hget]
      rfl
    · rw [hidx.2.2.1, hget]
      rfl
    · rw [hidx.2.2.2, hget]
      rfl

/-- A 1×1 bitmap with a non-opaque pixel `(10, 20, 30, 40)`. -/
def img6 : DecodedImage := ⟨1, 1, [⟨10, 20, 30, 40⟩]⟩

def col6 : Collab :=
  { decode := fun p => if p = "/d/a.png" then some img6 else none,
    svgRender := fun _ _ => none,
    resizeFn := fun _ nw nh => List.replicate (nw * nh) ⟨0, 0, 0, 0⟩ }

theorem c6_premultiply_law_witness :
    (renderPng col6 img6 1 "a").data.get? (4 * 0) = some 2
    ∧ (renderPng col6 img6 1 "a").data.get? (4 * 0 + 1) = some 3
    ∧ (renderPng col6 img6 1 "a").data.get? (4 * 0 + 2) = some 5
    ∧ (renderPng col6 img6 1 "a").data.get? (4 * 0 + 3) = some 40 := by
  have t := (c6_premultiply_law col6 ldr5 "a" "/d/a.png" 1 img6
    (by decide) (by decide) (by decide)).2 0 (by decide)
  exact ⟨t.1, t.2.1, t.2.2.1, t.2.2.2⟩

/-- Claim C1 amended: a successful load satisfies the size contract
(`width = size` and `data.len = size*size*4`) in the vector branch always
(under the vector collaborator's contract), and in the raster branch
whenever the decoded bitmap is square — the raster branch does *not*
guarantee it for non-square bitmaps (see the counterexample). -/
theorem c1_size_contract_amended (col : Collab) (ldr : IconLoader) (name p : String)
    (size : Nat) (hs : 0 < size)
    (hdc : DecodeContract col) (hrc : ResizeContract col) (hsc : SvgContract col)
    (hlook : lookupIcon ldr.icons name = some p) :
    (∀ res : Icon, lastFour p = some ".svg".data →
        IconLoader.load col ldr name size = some (Except.ok res) →
        res.width = size ∧ res.data.length = size * size * 4)
    ∧ (∀ (res : Icon) (img : DecodedImage), lastFour p = some ".png".data →
        col.decode p = some img → img.width = img.height → 0 < img.width →
        IconLoader.load col ldr name size = some (Except.ok res) →
        res.width = size ∧ res.data.length = size * size * 4) := by
  constructor
  · intro res hl4 hload
    simp only [IconLoader.load, hlook, hl4] at hload
    rw [if_neg (by decide)] at hload
    simp only [if_true] at hload
    cases hsvg : col.svgRender p size with
    | none =>
      rw [hsvg] at hload
      simp at hload
    | some svg =>
      rw [hsvg] at hload
      simp only [Option.some.injEq, Except.ok.injEq] at hload
      obtain ⟨hw, hlen⟩ := hsc p size svg hsvg
      rw [← hload]
      exact ⟨hw, by rw [hlen]⟩
  · intro res img hl4 hdec hsq hwpos hload
    simp only [IconLoader.load, hlook, hl4] at hload
    simp only [if_true] at hload
    rw [hdec] at hload
    have hload' : some (Except.ok (renderPng col img size name)) = some (Except.ok res) :=
      hload
    simp only [Option.some.injEq, Except.ok.injEq] at hload'
    rw [← hload']
    by_cases hc : img.width ≠ size ∧ img.height ≠ size
    · have hdims : resizeDimensions img.width img.height size size = (size, size) := by
        rw [← hsq]
        exact resizeDimensions_square img.width size hwpos hs
      have hstep : resizeStep col img size = resizeImage col img size := by
        simp only [resizeStep, if_pos hc]
      constructor
      · simp only [renderPng, hstep, resizeImage, hdims]
      · simp only [renderPng, hstep, resizeImage, hdims, DecodedImage.bytes,
          premulBytes_length, pixelsBytes_length, hrc img size size]
        ring
    · have hw : img.width = size := by
        rcases not_and_or.mp hc with h | h
        · exact not_not.mp h
        · rw [hsq]
          exact not_not.mp h
      have hh : img.height = size := by
        rw [← hsq]
        exact hw
      have hstep : resizeStep col img size = img := by
        simp only [resizeStep, if_neg hc]
      constructor
      · simp only [renderPng, hstep]
        exact hw
      · simp only [renderPng, hstep, DecodedImage.bytes, premulBytes_length,
          pixelsBytes_length, hdc p img hdec, hw, hh]
        ring

/-- Collaborators for the C1 counterexample.  All three contracts hold
(`decode` yields a consistent 1×2 RGBA buffer, the filter and the
rasterizer are well-behaved), so the violation comes from `load` itself,
not from an ill-behaved collaborator. -/
def colC1 : Collab :=
  { decode := fun p =>
      if p = "/a/foo.png" then some ⟨1, 2, [⟨10, 20, 30, 255⟩, ⟨40, 50, 60, 255⟩]⟩ else none,
    svgRender := fun _ _ => none,
    resizeFn := fun _ nw nh => List.replicate (nw * nh) ⟨0, 0, 0, 0⟩ }

/-- Claim C1 is false as stated: a raster icon decoded at 1×2 and requested at
size 1 matches the target width, so the resize is skipped, and the
returned Icon has `width = 1 = size` but `data.len = 8 ≠ 1*1*4`: the
result of a successful `load` is not always a square buffer of the
requested size. -/
theorem c1_size_contract_cex :
    IconLoader.load colC1 ⟨[("foo", "/a/foo.png")]⟩ "foo" 1
      = some (Except.ok ⟨[10, 20, 30, 255, 40, 50, 60, 255], 1, "foo"⟩)
    ∧ ([10, 20, 30, 255, 40, 50, 60, 255] : List Nat).length ≠ 1 * 1 * 4 :=
  ⟨by decide, by decide⟩

/-- Collaborators for the C1 witness: vector rasterization always
succeeds with a well-formed square buffer. -/
def colC1w : Collab :=
  { decode := fun _ => none,
    svgRender := fun _ s => some ⟨List.replicate (s * s * 4) 0, s⟩,
    resizeFn := fun _ nw nh => List.replicate (nw * nh) ⟨0, 0, 0, 0⟩ }

theorem c1_size_contract_witness :
    ((⟨List.replicate 4 0, 1, "foo"⟩ : Icon).width = 1)
    ∧ ((⟨List.replicate 4 0, 1, "foo"⟩ : Icon).data.length = 1 * 1 * 4) :=
  (c1_size_contract_amended colC1w ⟨[("foo", "/a/foo.svg")]⟩ "foo" "/a/foo.svg" 1
      (by decide)
      (fun p img h => Option.noConfusion h)
      (fun img nw nh => List.length_replicate _ _)
      (by
        intro p s svg h
        injection h with h'
        subst h'
        exact ⟨rfl, List.length_replicate _ _⟩)
      (by decide)).1
    ⟨List.replicate 4 0, 1, "foo"⟩ (by decide) (by decide)

/-- `icon_size` of the state right after the factor write. -/
theorem iconSize_set (d : DesktopEntries) (f : Nat) :
    iconSize { d with scaleFactor := f } = ICON_SIZE * f := rfl

/-- Claim C7: an entry whose re-render fails keeps its previous `Icon` through
`set_scale_factor`. -/
theorem c7_rescale_failure_keeps_icon (lf : String → Nat → Option Icon)
    (d : DesktopEntries) (f i : Nat) (e : DesktopEntry)
    (h1 : d.entries[i]? = some e)
    (h2 : lf e.icon.name (ICON_SIZE * f) = none) :
    (setScaleFactor lf d f).entries[i]? = some e := by
  unfold setScaleFactor
  by_cases hsf : d.scaleFactor = f
  · simp [hsf, h1]
  · simp only [if_neg hsf, List.getElem?_map, h1, Option.map_some]
    simp [iconSize_set, h2]

/-- A load function that always fails, for concrete rescale scenarios. -/
def lfNone : String → Nat → Option Icon := fun _ _ => none

/-- A one-entry catalog state at scale factor 1. -/
def dW : DesktopEntries := ⟨[⟨⟨[0, 0, 0, 0], 64, "x"⟩, "X", "bin"⟩], 1⟩

theorem c7_rescale_failure_keeps_icon_witness :
    (setScaleFactor lfNone dW 2).entries[0]? = some ⟨⟨[0, 0, 0, 0], 64, "x"⟩, "X", "bin"⟩ :=
  c7_rescale_failure_keeps_icon lfNone dW 2 0 ⟨⟨[0, 0, 0, 0], 64, "x"⟩, "X", "bin"⟩ rfl rfl

/-- Claim C8: calling `set_scale_factor` with the current factor leaves the whole state
(entries, icons, factor) unchanged and performs no `loader.load` call. -/
theorem c8_rescale_noop (lf : String → Nat → Option Icon) (d : DesktopEntries) (f : Nat)
    (h : d.scaleFactor = f) :
    setScaleFactor lf d f = d ∧ setScaleFactorCalls d f = [] := by
  constructor
  · unfold setScaleFactor
    simp [h]
  · unfold setScaleFactorCalls
    simp [h]

theorem c8_rescale_noop_witness :
    setScaleFactor lfNone dW 1 = dW ∧ setScaleFactorCalls dW 1 = [] :=
  c8_rescale_noop lfNone dW 1 rfl

/-- Claim C10: with a changed factor, the stored factor is updated to `f` (so
`icon_size` becomes `64 * f`), every re-render request is issued at the
*new* size, and if every re-render fails the entries (hence every stored
icon's bytes and width) are unchanged — so a stored width may then differ
from `icon_size`. -/
theorem c10_scale_updated (lf : String → Nat → Option Icon) (d : DesktopEntries) (f : Nat)
    (h : d.scaleFactor ≠ f) :
    (setScaleFactor lf d f).scaleFactor = f
    ∧ iconSize (setScaleFactor lf d f) = 64 * f
    ∧ setScaleFactorCalls d f = d.entries.map (fun e => (e.icon.name, 64 * f))
    ∧ ((∀ n s, lf n s = none) → (setScaleFactor lf d f).entries = d.entries) := by
  refine ⟨?_, ?_, ?_, ?_⟩
  · simp [setScaleFactor, h]
  · simp [setScaleFactor, iconSize, h, ICON_SIZE]
  · simp [setScaleFactorCalls, h, ICON_SIZE]
  · intro hf
    simp [setScaleFactor, h, hf]

theorem c10_scale_updated_witness :
    (setScaleFactor lfNone dW 2).scaleFactor = 2
    ∧ iconSize (setScaleFactor lfNone dW 2) = 64 * 2
    ∧ setScaleFactorCalls dW 2 = dW.entries.map (fun e => (e.icon.name, 64 * 2))
    ∧ (setScaleFactor lfNone dW 2).entries = dW.entries := by
  have t := c10_scale_updated lfNone dW 2 (by decide)
  exact ⟨t.1, t.2.1, t.2.2.1, t.2.2.2 (fun n s => rfl)⟩

/-! ## Lemmas: the desktop-file parser -/

theorem lineStep_name_of_none (lf : String → Nat → Option Icon) (isz : Nat) (st : PState)
    (l : String) (h : keyValue "Name=" l = none) :
    (lineStep lf isz st l).name = st.name := by
  unfold lineStep
  rw [h]
  cases keyValue "Icon=" l <;> cases keyValue "Exec=" l <;> rfl

theorem lineStep_icon_of_none (lf : String → Nat → Option Icon) (isz : Nat) (st : PState)
    (l : String) (h : keyValue "Icon=" l = none) :
    (lineStep lf isz st l).icon = st.icon := by
  unfold lineStep
  rw [h]
  cases keyValue "Name=" l <;> cases keyValue "Exec=" l <;> rfl

theorem lineStep_exec_of_none (lf : String → Nat → Option Icon) (isz : Nat) (st : PState)
    (l : String) (h : keyValue "Exec=" l = none) :
    (lineStep lf isz st l).exec = st.exec := by
  unfold lineStep
  rw [h]
  cases keyValue "Name=" l <;> cases keyValue "Icon=" l <;> rfl

/-- Two keys of equal length cannot both match the same line. -/
theorem keyValue_of_keyValue_ne (k1 k2 l v : String)
    (hlen : k1.data.length = k2.data.length) (hne : k1.data ≠ k2.data)
    (h : keyValue k1 l = some v) : keyValue k2 l = none := by
  unfold keyValue at h ⊢
  by_cases h1 : l.data.take k1.data.length = k1.data
  · rw [if_neg]
    intro h2
    exact hne (h1.symm.trans (by rw [hlen]; exact h2))
  · rw [if_neg h1] at h
    exact absurd h (by simp)

theorem lineStep_icon_of_some (lf : String → Nat → Option Icon) (isz : Nat) (st : PState)
    (l v : String) (h : keyValue "Icon=" l = some v) :
    (lineStep lf isz st l).icon = lf v isz := by
  have hn : keyValue "Name=" l = none :=
    keyValue_of_keyValue_ne "Icon=" "Name=" l v (by decide) (by decide) h
  unfold lineStep
  rw [hn, h]

theorem lineStep_exec_of_some (lf : String → Nat → Option Icon) (isz : Nat) (st : PState)
    (l v : String) (h : keyValue "Exec=" l = some v) :
    (lineStep lf isz st l).exec = some (firstToken v) := by
  have hn : keyValue "Name=" l = none :=
    keyValue_of_keyValue_ne "Exec=" "Name=" l v (by decide) (by decide) h
  have hi : keyValue "Icon=" l = none :=
    keyValue_of_keyValue_ne "Exec=" "Icon=" l v (by decide) (by decide) h
  unfold lineStep
  rw [hn, hi, h]

theorem parseLines_nil (lf : String → Nat → Option Icon) (isz : Nat) (st : PState) :
    parseLines lf isz [] st = st := rfl

theorem parseLines_cons (lf : String → Nat → Option Icon) (isz : Nat) (l : String)
    (rest : List String) (st : PState) :
    parseLines lf isz (l :: rest) st =
      if allSome (lineStep lf isz st l) = true then lineStep lf isz st l
      else parseLines lf isz rest (lineStep lf isz st l) := rfl

theorem parseLines_name_of_none (lf : String → Nat → Option Icon) (isz : Nat) :
    ∀ (ls : List String) (st : PState), (∀ l ∈ ls, keyValue "Name=" l = none) →
      (parseLines lf isz ls st).name = st.name
  | [], st, _ => rfl
  | l :: rest, st, h => by
    have hn := lineStep_name_of_none lf isz st l (h l (List.mem_cons_self l rest))
    have ih := parseLines_name_of_none lf isz rest (lineStep lf isz st l)
      (fun l' hl' => h l' (List.mem_cons_of_mem l hl'))
    rw [parseLines_cons]
    cases hb : allSome (lineStep lf isz st l) <;> simp [hb, hn, ih]

theorem parseLines_icon_of_none (lf : String → Nat → Option Icon) (isz : Nat) :
    ∀ (ls : List String) (st : PState), (∀ l ∈ ls, keyValue "Icon=" l = none) →
      (parseLines lf isz ls st).icon = st.icon
  | [], st, _ => rfl
  | l :: rest, st, h => by
    have hn := lineStep_icon_of_none lf isz st l (h l (List.mem_cons_self l rest))
    have ih := parseLines_icon_of_none lf isz rest (lineStep lf isz st l)
      (fun l' hl' => h l' (List.mem_cons_of_mem l hl'))
    rw [parseLines_cons]
    cases hb : allSome (lineStep lf isz st l) <;> simp [hb, hn, ih]

theorem parseLines_exec_of_none (lf : String → Nat → Option Icon) (isz : Nat) :
    ∀ (ls : List String) (st : PState), (∀ l ∈ ls, keyValue "Exec=" l = none) →
      (parseLines lf isz ls st).exec = st.exec
  | [], st, _ => rfl
  | l :: rest, st, h => by
    have hn := lineStep_exec_of_none lf isz st l (h l (List.mem_cons_self l rest))
    have ih := parseLines_exec_of_none lf isz rest (lineStep lf isz st l)
      (fun l' hl' => h l' (List.mem_cons_of_mem l hl'))
    rw [parseLines_cons]
    cases hb : allSome (lineStep lf isz st l) <;> simp [hb, hn, ih]

/-- Once the break condition holds at the end of a processed chunk, any
further lines are never looked at. -/
theorem parseLines_append_break (lf : String → Nat → Option Icon) (isz : Nat) :
    ∀ (pre post : List String) (st : PState), allSome st = false →
      allSome (parseLines lf isz pre st) = true →
      parseLines lf isz (pre ++ post) st = parseLines lf isz pre st
  | [], _, st, h0, h1 => absurd h1 (by simp [parseLines_nil, h0])
  | l :: pre, post, st, h0, h1 => by
    rw [List.cons_append, parseLines_cons, parseLines_cons]
    rw [parseLines_cons] at h1
    cases hb : allSome (lineStep lf isz st l)
    · simp only [hb] at h1 ⊢
      simp only [Bool.false_eq_true, if_false] at h1 ⊢
      exact parseLines_append_break lf isz pre post _ hb h1
    · simp [hb]

/-- While the break condition has not held, parsing continues through an
appended suffix from the state the first chunk produced. -/
theorem parseLines_append_cont (lf : String → Nat → Option Icon) (isz : Nat) :
    ∀ (pre rest : List String) (st : PState),
      allSome (parseLines lf isz pre st) = false →
      parseLines lf isz (pre ++ rest) st = parseLines lf isz rest (parseLines lf isz pre st)
  | [], _, _, _ => rfl
  | l :: pre, rest, st, h => by
    rw [List.cons_append, parseLines_cons]
    rw [parseLines_cons] at h ⊢
    cases hb : allSome (lineStep lf isz st l)
    · simp only [hb, Bool.false_eq_true, if_false] at h ⊢
      exact parseLines_append_cont lf isz pre rest _ h
    · simp only [hb, if_true] at h
      simp [hb] at h

/-- A load function succeeding exactly on the icon name `"x"`. -/
def lfX : String → Nat → Option Icon := fun n _ => if n = "x" then some ⟨[0], 1, "x"⟩ else none

/-- Claim C4 is false as stated: in a file with two `Name=` lines before the
three keys are complete, the stored display name is the one from the
*second* occurrence — each occurrence overwrites, so the first occurrence
does not determine the stored value. -/
theorem c4_first_occurrence_cex :
    (parseDesktopFile lfX 64 ["Name=A", "Name=B", "Icon=x", "Exec=e f"]).map (fun e => e.name)
        = some "B"
    ∧ (parseDesktopFile lfX 64 ["Name=A", "Name=B", "Icon=x", "Exec=e f"]).map (fun e => e.name)
        ≠ some "A" := by
  constructor
  · decide
  · decide

/-- Claim C4 amended: for each of the keys `Name=`, `Icon=` and `Exec=`,
each occurrence *overwrites* the stored value, so the last occurrence
processed before the early stop determines it — for `Icon=` the stored
value is the result of loading that occurrence's value, which may be a
failure overwriting a previously loaded icon; parsing stops as soon as
all three keys have been found; and a file missing any of the three keys
contributes no entry. -/
theorem c4_parse_amended (lf : String → Nat → Option Icon) (isz : Nat) :
    (∀ pre post : List String, allSome (parseLines lf isz pre initState) = true →
        parseLines lf isz (pre ++ post) initState = parseLines lf isz pre initState)
    ∧ (∀ (pre : List String) (l : String) (post : List String) (v : String),
        keyValue "Name=" l = some v →
        allSome (parseLines lf isz pre initState) = false →
        (∀ l' ∈ post, keyValue "Name=" l' = none) →
        (parseLines lf isz (pre ++ l :: post) initState).name = some v)
    ∧ (∀ (pre : List String) (l : String) (post : List String) (v : String),
        keyValue "Icon=" l = some v →
        allSome (parseLines lf isz pre initState) = false →
        (∀ l' ∈ post, keyValue "Icon=" l' = none) →
        (parseLines lf isz (pre ++ l :: post) initState).icon = lf v isz)
    ∧ (∀ (pre : List String) (l : String) (post : List String) (v : String),
        keyValue "Exec=" l = some v →
        allSome (parseLines lf isz pre initState) = false →
        (∀ l' ∈ post, keyValue "Exec=" l' = none) →
        (parseLines lf isz (pre ++ l :: post) initState).exec = some (firstToken v))
    ∧ (∀ ls : List String, (∀ l ∈ ls, keyValue "Name=" l = none) →
        parseDesktopFile lf isz ls = none)
    ∧ (∀ ls : List String, (∀ l ∈ ls, keyValue "Icon=" l = none) →
        parseDesktopFile lf isz ls = none)
    ∧ (∀ ls : List String, (∀ l ∈ ls, keyValue "Exec=" l = none) →
        parseDesktopFile lf isz ls = none) := by
  refine ⟨?_, ?_, ?_, ?_, ?_, ?_, ?_⟩
  · intro pre post h
    exact parseLines_append_break lf isz pre post initState rfl h
  · intro pre l post v hkv hcont hpost
    rw [parseLines_append_cont lf isz pre (l :: post) initState hcont, parseLines_cons]
    have hname : (lineStep lf isz (parseLines lf isz pre initState) l).name = some v := by
      unfold lineStep
      rw [hkv]
    cases hb : allSome (lineStep lf isz (parseLines lf isz pre initState) l)
    · simp only [Bool.false_eq_true, if_false]
      rw [parseLines_name_of_none lf isz post _ hpost]
      exact hname
    · simp only [if_true]
      exact hname
  · intro pre l post v hkv hcont hpost
    rw [parseLines_append_cont lf isz pre (l :: post) initState hcont, parseLines_cons]
    have hicon : (lineStep lf isz (parseLines lf isz pre initState) l).icon = lf v isz :=
      lineStep_icon_of_some lf isz _ l v hkv
    cases hb : allSome (lineStep lf isz (parseLines lf isz pre initState) l)
    · simp only [Bool.false_eq_true, if_false]
      rw [parseLines_icon_of_none lf isz post _ hpost]
      exact hicon
    · simp only [if_true]
      exact hicon
  · intro pre l post v hkv hcont hpost
    rw [parseLines_append_cont lf isz pre (l :: post) initState hcont, parseLines_cons]
    have hexec : (lineStep lf isz (parseLines lf isz pre initState) l).exec
        = some (firstToken v) :=
      lineStep_exec_of_some lf isz _ l v hkv
    cases hb : allSome (lineStep lf isz (parseLines lf isz pre initState) l)
    · simp only [Bool.false_eq_true, if_false]
      rw [parseLines_exec_of_none lf isz post _ hpost]
      exact hexec
    · simp only [if_true]
      exact hexec
  · intro ls h
    have hname : (parseLines lf isz ls initState).name = none :=
      parseLines_name_of_none lf isz ls initState h
    unfold parseDesktopFile
    rcases hfin : parseLines lf isz ls initState with ⟨nm, ic, ex⟩
    rw [hfin] at hname
    simp only at hname
    subst hname
    cases ic <;> cases ex <;> rfl
  · intro ls h
    have hicon : (parseLines lf isz ls initState).icon = none :=
      parseLines_icon_of_none lf isz ls initState h
    unfold parseDesktopFile
    rcases hfin : parseLines lf isz ls initState with ⟨nm, ic, ex⟩
    rw [hfin] at hicon
    simp only at hicon
    subst hicon
    cases nm <;> cases ex <;> rfl
  · intro ls h
    have hexec : (parseLines lf isz ls initState).exec = none :=
      parseLines_exec_of_none lf isz ls initState h
    unfold parseDesktopFile
    rcases hfin : parseLines lf isz ls initState with ⟨nm, ic, ex⟩
    rw [hfin] at hexec
    simp only at hexec
    subst hexec
    cases nm <;> cases ic <;> rfl

theorem c4_parse_witness :
    parseLines lfX 64 (["Name=A", "Icon=x", "Exec=e"] ++ ["Name=Z"]) initState
        = parseLines lfX 64 ["Name=A", "Icon=x", "Exec=e"] initState
    ∧ (parseLines lfX 64 (["Icon=x"] ++ "Name=A" :: ["Exec=e"]) initState).name = some "A"
    ∧ (parseLines lfX 64 (["Name=A"] ++ "Icon=x" :: ["Exec=e"]) initState).icon = lfX "x" 64
    ∧ (parseLines lfX 64 (["Icon=x"] ++ "Icon=bad" :: ["Name=A", "Exec=e"]) initState).icon
        = lfX "bad" 64
    ∧ (parseLines lfX 64 (["Name=A"] ++ "Exec=e f" :: []) initState).exec
        = some (firstToken "e f")
    ∧ parseDesktopFile lfX 64 ["Icon=x", "Exec=e"] = none
    ∧ parseDesktopFile lfX 64 ["Name=A", "Exec=e"] = none
    ∧ parseDesktopFile lfX 64 ["Name=A", "Icon=x"] = none := by
  have t := c4_parse_amended lfX 64
  exact ⟨t.1 ["Name=A", "Icon=x", "Exec=e"] ["Name=Z"] (by decide),
    t.2.1 ["Icon=x"] "Name=A" ["Exec=e"] "A" (by decide) (by decide) (by decide),
    t.2.2.1 ["Name=A"] "Icon=x" ["Exec=e"] "x" (by decide) (by decide) (by decide),
    t.2.2.1 ["Icon=x"] "Icon=bad" ["Name=A", "Exec=e"] "bad" (by decide) (by decide) (by decide),
    t.2.2.2.1 ["Name=A"] "Exec=e f" [] "e f" (by decide) (by decide) (by decide),
    t.2.2.2.2.1 ["Icon=x", "Exec=e"] (by decide),
    t.2.2.2.2.2.1 ["Name=A", "Exec=e"] (by decide),
    t.2.2.2.2.2.2 ["Name=A", "Icon=x"] (by decide)⟩
